import Mathlib

/-!
Verification development for the scenario_runner expression engine and
intersection controller.

The definitions below are shallow embeddings of the C++ sources:

* `scenario_expression/include/scenario_expression/expression.h`
  (the `Context` accessor boilerplate, the `Expression` handle/node scheme,
  `Literal`, the `All`/`Any` n-ary logical expressions generated by
  `DEFINE_N_ARY_LOGICAL_EXPRESSION`, and `Procedure`/`Predicate`);
* `scenario_intersection/include/scenario_intersection/intersection.hpp`
  (the `Transition` and `Controller` classes);
* `scenario_conditions/include/scenario_conditions/condition_manager.hpp`
  (declaration of `ConditionManager::update`; its implementation file is not
  part of the four sources, so the verdict reduction is modelled from the
  specification where noted).

Machine state that the C++ threads implicitly (module/plugin state, issued
actuator commands, thrown exceptions) is made explicit: evaluation returns
`Except String` and threads an `EvalState`, and the simulator is a response
function `Cmd → Bool` together with an explicit trace of issued commands.
-/

namespace ScenarioExpression

/-- Which of the three collaborators of `scenario_expression::Context` a
node needs (`api`, `entities`, `intersections`; expression.h lines 77-79). -/
inductive Collab where
  | api
  | entities
  | intersections
deriving DecidableEq

/-- `scenario_expression::Context` (expression.h lines 46-82).  Each
collaborator is a possibly-null `std::shared_ptr`; the payloads are
irrelevant to the engine, so they are modelled as `Unit`.  `procResult`
models the outcome of an externally loaded plugin's `update` call (plugin
bodies are not part of the sources): given the plugin id and the module's
current internal state it yields the boolean the module reports. -/
structure Context where
  api_ : Option Unit
  entities_ : Option Unit
  intersections_ : Option Unit
  procResult : Nat → Nat → Bool

/-- The error message produced by the `Context` accessor macro
(`"No " #NAME " defined, but scenario execution requires this."`,
expression.h lines 71-74). -/
def missingMsg : Collab → String
  | .api => "No api defined, but scenario execution requires this."
  | .entities => "No entities defined, but scenario execution requires this."
  | .intersections => "No intersections defined, but scenario execution requires this."

/-- The throwing accessor generated by the `boilerplate` macro
(expression.h lines 63-75): returns the collaborator when the pointer is
non-null and raises `SCENARIO_ERROR_THROW` otherwise. -/
def Context.require (c : Collab) (ctx : Context) : Except String Unit :=
  match c with
  | .api =>
      match ctx.api_ with
      | some a => .ok a
      | none => .error (missingMsg .api)
  | .entities =>
      match ctx.entities_ with
      | some a => .ok a
      | none => .error (missingMsg .entities)
  | .intersections =>
      match ctx.intersections_ with
      | some a => .ok a
      | none => .error (missingMsg .intersections)

/-- An `Expression` handle, identified by what its `data` pointer refers to.

* `empty` — a default-constructed handle (`data == nullptr`,
  expression.h lines 142-145);
* `boolean b` — a handle to a `Literal<bool>` node made by
  `Expression::make<Boolean>(b)`;
* `all cs` / `any cs` — handles to the `All` / `Any` nodes generated by
  `DEFINE_N_ARY_LOGICAL_EXPRESSION` (expression.h lines 372-373), holding
  the child handles in declaration order;
* `nt c` — Modelled from the spec: the unary `Not` combinator ("evaluates
  its single child, returns the logical negation as a boolean literal");
  the class itself lives in `expression.cpp`, which is not among the
  sources;
* `procedure pid` — a handle to a `Procedure` node whose loaded plugin is
  identified by `pid`;
* `procedureReq c pid` — Modelled from the spec: a procedure node whose
  module requires collaborator `c` through the throwing `Context` accessor
  at evaluation time ("evaluating a node that needs a collaborator not
  present in the context fails with a configuration error"); the module
  bodies are external plugins, not among the sources. -/
inductive Expr where
  | empty
  | boolean (b : Bool)
  | all (cs : List Expr)
  | any (cs : List Expr)
  | nt (c : Expr)
  | procedure (pid : Nat)
  | procedureReq (c : Collab) (pid : Nat)

/-- `Expression::operator bool` (expression.h lines 215-218) on a handle:
`data ? static_cast<bool>(*data) : false`.  Only `Literal` overrides the
node-level conversion (lines 275-278); `All`, `Any` and `Procedure` nodes
inherit `Expression::operator bool`, and a node's own `data` pointer is
null, so every non-literal handle converts to `false`. -/
def Expr.toBool : Expr → Bool
  | .boolean b => b
  | _ => false

/-- Evaluation state: `modules` maps a plugin id to the module's internal
state counter (each `update` advances it), and `log` records every module
`update` invocation in order, making "evaluated exactly once, left to
right" observable. -/
structure EvalState where
  modules : List (Nat × Nat)
  log : List Nat
deriving DecidableEq

/-- Look up a plugin's module state (0 before the first update). -/
def mGet : List (Nat × Nat) → Nat → Nat
  | [], _ => 0
  | (p, v) :: rest, q => if p = q then v else mGet rest q

/-- Advance a plugin's module state by one. -/
def mBump (m : List (Nat × Nat)) (pid : Nat) : List (Nat × Nat) :=
  (pid, mGet m pid + 1) :: m.filter (fun p => p.1 ≠ pid)

/-- One module `update` call: advances the module state and logs the call. -/
def stepModule (s : EvalState) (pid : Nat) : EvalState :=
  { modules := mBump s.modules pid, log := s.log ++ [pid] }

mutual

/-- `evaluate(Context &)` of an `Expression` handle.

* handle with `data == nullptr`: `Expression::evaluate`
  (expression.h lines 176-179) returns `*this`, a copy of the empty handle;
* handle to a `Literal` node: `Literal::evaluate` (lines 270-273) returns
  `*this` **by value with return type `Expression`**, so the result is
  copy-constructed through `Expression(const Expression &)` from the node;
  a node's own `data` pointer is null (it was built through the protected
  `Expression(std::integral_constant<...>)` constructor, lines 221-224),
  hence the returned handle is empty;
* handle to an `All`/`Any` node: the macro-generated `evaluate`
  (lines 318-328) wraps `std::accumulate` over the operands — a left fold
  seeded with the macro's `BASE_CASE` (`true` for `All`, `false` for `Any`)
  whose step is `combine(lhs, rhs.evaluate(context))` with
  `std::logical_and<bool>` / `std::logical_or<bool>`; a C++ exception
  thrown by a child aborts the fold and propagates (there is no handler);
* `nt`: Modelled from the spec: evaluates the single child and wraps the
  negation of its truthiness as a boolean literal;
* `procedure`: `Procedure::evaluate` (lines 424-427) calls
  `plugin->update(context.intersections_pointer())` — the pointer accessor
  does not check for null — and wraps the returned boolean via
  `Expression::make<Boolean>`;
* `procedureReq`: Modelled from the spec: like `procedure`, but the module
  first obtains collaborator `c` through the throwing accessor. -/
def eval : Expr → Context → EvalState → Except String (Expr × EvalState)
  | .empty, _, s => .ok (.empty, s)
  | .boolean _, _, s => .ok (.empty, s)
  | .all cs, ctx, s =>
      match evalFoldAnd cs ctx s true with
      | .ok (b, s1) => .ok (.boolean b, s1)
      | .error e => .error e
  | .any cs, ctx, s =>
      match evalFoldOr cs ctx s false with
      | .ok (b, s1) => .ok (.boolean b, s1)
      | .error e => .error e
  | .nt c, ctx, s =>
      match eval c ctx s with
      | .ok (r, s1) => .ok (.boolean (! r.toBool), s1)
      | .error e => .error e
  | .procedure pid, ctx, s =>
      .ok (.boolean (ctx.procResult pid (mGet s.modules pid)), stepModule s pid)
  | .procedureReq c pid, ctx, s =>
      match Context.require c ctx with
      | .ok _ => .ok (.boolean (ctx.procResult pid (mGet s.modules pid)), stepModule s pid)
      | .error e => .error e

/-- The `std::accumulate` fold of `All::evaluate` (expression.h
lines 320-327): every operand is evaluated, left to right, with no
short-circuiting; the accumulator is combined with the truthiness of each
operand's evaluation result. -/
def evalFoldAnd : List Expr → Context → EvalState → Bool → Except String (Bool × EvalState)
  | [], _, s, acc => .ok (acc, s)
  | c :: rest, ctx, s, acc =>
      match eval c ctx s with
      | .ok (r, s1) => evalFoldAnd rest ctx s1 (acc && r.toBool)
      | .error e => .error e

/-- The `std::accumulate` fold of `Any::evaluate`, with
`std::logical_or<bool>`. -/
def evalFoldOr : List Expr → Context → EvalState → Bool → Except String (Bool × EvalState)
  | [], _, s, acc => .ok (acc, s)
  | c :: rest, ctx, s, acc =>
      match eval c ctx s with
      | .ok (r, s1) => evalFoldOr rest ctx s1 (acc || r.toBool)
      | .error e => .error e

end

/-- Specification-side sequential evaluation: evaluates each child exactly
once, left to right, threading the evaluation state, and collects each
child's per-evaluation boolean result.  Used to state what the `All`/`Any`
folds compute. -/
def evalSeq : List Expr → Context → EvalState → Except String (List Bool × EvalState)
  | [], _, s => .ok ([], s)
  | c :: rest, ctx, s =>
      match eval c ctx s with
      | .ok (r, s1) =>
          match evalSeq rest ctx s1 with
          | .ok (bs, s2) => .ok (r.toBool :: bs, s2)
          | .error e => .error e
      | .error e => .error e

/-- A loaded plugin instance, identified by the declaration it was created
from (`pluginlib::ClassLoader::createSharedInstance`). -/
structure Plugin where
  declaration : String
deriving DecidableEq

/-- The plugin registry as `Procedure::load` sees it
(expression.h lines 413-422): `declaredClasses` is
`loader().getDeclaredClasses()`, `names` is `loader().getName`, and
`createSharedInstance` yields the instance for a declaration (a null
result is modelled as `none`). -/
structure Loader where
  declaredClasses : List String
  names : String → String
  createSharedInstance : String → Option Plugin

/-- `Procedure::load` (expression.h lines 413-422): walk the declared
classes in order; at the first declaration whose registered name equals
`name`, return `createSharedInstance` of it; if no declaration matches,
`SCENARIO_ERROR_THROW` "Failed to load Procedure <name>". -/
def load (L : Loader) (name : String) : Except String (Option Plugin) :=
  match L.declaredClasses.find? (fun d => L.names d == name) with
  | some d => .ok (L.createSharedInstance d)
  | none => .error ("Failed to load Procedure " ++ name)

/-- The YAML node of a predicate leaf: the value of its essential `Type`
key (`read_essential<std::string>(node, "Type")`). -/
structure PNode where
  typeName : String
deriving DecidableEq

/-- `Predicate::Predicate(Context &, const YAML::Node &)`
(expression.h lines 438-451): calls `load(Type + "Condition")`; a non-null
result is configured (`plugin->configure(node, context.api_pointer())`,
whose boolean result the constructor discards) and kept, a null result
raises "Failed to load procedure of type <Type>", and the function-try
block rethrows any error wrapped in "Syntax error: malformed predicate.".
Construction happens while the tree is read, before any tick. -/
def Predicate.construct (L : Loader) (node : PNode) : Except String Plugin :=
  match load L (node.typeName ++ "Condition") with
  | .ok (some p) => .ok p
  | .ok none =>
      .error ("Syntax error: malformed predicate. Failed to load procedure of type "
        ++ node.typeName)
  | .error e => .error ("Syntax error: malformed predicate. " ++ e)

end ScenarioExpression

namespace RefCount

/-- A heap-allocated `Expression` node as the reference-counting scheme
sees it (expression.h lines 141-239): its `count` field and, for
`Procedure` nodes, the identity of the loaded plugin the node holds. -/
structure RNode where
  count : Nat
  pluginId : Nat
deriving DecidableEq

/-- The heap: an association list from addresses to allocated nodes. -/
abbrev Heap := List (Nat × RNode)

/-- Look up the node allocated at address `a` (first match). -/
def hLookup : Heap → Nat → Option RNode
  | [], _ => none
  | (b, n) :: rest, a => if b = a then some n else hLookup rest a

/-- `++(data->count)` — increment the reference count of the node at `a`
(copy constructor, expression.h lines 147-154). -/
def hIncr : Heap → Nat → Heap
  | [], _ => []
  | (b, n) :: rest, a =>
      if b = a then (b, { n with count := n.count + 1 }) :: rest
      else (b, n) :: hIncr rest a

/-- `if (data && --(data->count) == 0) delete data;` — decrement the
reference count of the node at `a` and free it when the count reaches zero
(destructor, expression.h lines 156-161). -/
def hDecrFree : Heap → Nat → Heap
  | [], _ => []
  | (b, n) :: rest, a =>
      if b = a then
        if n.count ≤ 1 then rest
        else (b, { n with count := n.count - 1 }) :: rest
      else (b, n) :: hDecrFree rest a

/-- How many live handles reference address `a`. -/
def countRefs : List (Option Nat) → Nat → Nat
  | [], _ => 0
  | v :: rest, a => (if v = some a then 1 else 0) + countRefs rest a

/-- Machine state of the handle/node scheme: the heap of allocated nodes,
the live `Expression` handles (each either empty or referencing an
address), the next fresh address, and the internal state of each plugin
module (`pluginId ↦ counter`), used to observe which module an evaluation
advances. -/
structure RState where
  heap : Heap
  vars : List (Option Nat)
  next : Nat
  modules : List (Nat × Nat)
deriving DecidableEq

/-- The operations the scheme supports, acting on an indexed collection of
live handles:

* `make pid` — `Expression::make<T>` (expression.h lines 181-187): a fresh
  node with `count == 1` (protected constructor, lines 221-224) and a new
  handle owning it;
* `copy i` — the copy constructor (lines 147-154): a new handle sharing
  handle `i`'s node, incrementing its count (null `data` is copied as
  null);
* `destroy i` — the destructor (lines 156-161): handle `i` is released;
  the node's count is decremented and the node deleted when it reaches 0;
* `assign i j` — `operator=` (lines 169-174): copy-and-swap, modelled
  literally as copy `j` into a temporary, swap the `data` pointers of
  handle `i` and the temporary, and destroy the temporary. -/
inductive Op where
  | make (pid : Nat)
  | copy (i : Nat)
  | destroy (i : Nat)
  | assign (i j : Nat)
deriving DecidableEq

/-- `std::swap(data, e.data)` between handles `i` and `j`
(`Expression::swap`, expression.h lines 189-192). -/
def swapVars (s : RState) (i j : Nat) : RState :=
  if i < s.vars.length ∧ j < s.vars.length then
    { s with vars := (s.vars.set i (s.vars.getD j none)).set j (s.vars.getD i none) }
  else s

/-- `Expression::make<T>`: allocate a fresh node with `count == 1` and
push a handle owning it. -/
def opMake (pid : Nat) (s : RState) : RState :=
  { s with
    heap := s.heap ++ [(s.next, ⟨1, pid⟩)]
    vars := s.vars ++ [some s.next]
    next := s.next + 1 }

/-- The copy constructor: push a handle sharing handle `i`'s node,
incrementing its count (`if (data) ++(data->count);`). -/
def opCopy (i : Nat) (s : RState) : RState :=
  match s.vars.getD i none with
  | none => { s with vars := s.vars ++ [none] }
  | some a => { s with heap := hIncr s.heap a, vars := s.vars ++ [some a] }

/-- The destructor: release handle `i`, decrementing its node's count and
deleting the node when the count reaches zero. -/
def opDestroy (i : Nat) (s : RState) : RState :=
  match s.vars.getD i none with
  | none => { s with vars := s.vars.eraseIdx i }
  | some a => { s with heap := hDecrFree s.heap a, vars := s.vars.eraseIdx i }

/-- Apply one operation to the machine state.  `assign i j` is the
copy-and-swap body of `operator=` (expression.h lines 169-174): the
temporary `Expression e {rhs}` is pushed at index `s.vars.length`, its
`data` pointer is swapped with handle `i`'s, and the temporary is
destroyed at the end of the full expression. -/
def applyOp : Op → RState → RState
  | .make pid, s => opMake pid s
  | .copy i, s => opCopy i s
  | .destroy i, s => opDestroy i s
  | .assign i j, s =>
      let s1 := opCopy j s
      let s2 := swapVars s1 i (s.vars.length)
      opDestroy (s.vars.length) s2

/-- The initial state: no nodes, no handles. -/
def init : RState := ⟨[], [], 0, []⟩

/-- Run a sequence of operations from the initial state. -/
def runOps (ops : List Op) : RState :=
  ops.foldl (fun s op => applyOp op s) init

/-- The sharing invariant: every allocated node's reference count equals
the number of live handles referencing it and is positive (a node whose
last handle is gone has been deleted), no address refers to two nodes,
allocated addresses are below the allocation counter, and an address with
no node has no referencing handle. -/
def Wf (s : RState) : Prop :=
  (∀ a n, hLookup s.heap a = some n →
    n.count = countRefs s.vars a ∧ 0 < n.count ∧ a < s.next) ∧
  (∀ a, hLookup s.heap a = none → countRefs s.vars a = 0) ∧
  (s.heap.map Prod.fst).Nodup

/-- Evaluate the `Procedure` node referenced by handle `i`
(`Procedure::evaluate`, expression.h lines 424-427): the node's plugin
`update` advances that module's internal state; an empty handle evaluates
to itself with no effect. -/
def evalHandle (s : RState) (i : Nat) : Option Bool × RState :=
  match s.vars.getD i none with
  | none => (none, s)
  | some a =>
      match hLookup s.heap a with
      | none => (none, s)
      | some n =>
          (some true,
            { s with
              modules :=
                (n.pluginId, ScenarioExpression.mGet s.modules n.pluginId + 1)
                  :: s.modules.filter (fun p => p.1 ≠ n.pluginId) })

end RefCount

namespace ScenarioIntersection

/-- Traffic-light colors (`scenario_intersection/color.hpp` is not among
the sources; modelled from the spec's red/green/blank vocabulary, with
`blank` the explicit "no color" value the code compares against). -/
inductive Color where
  | blank
  | red
  | yellow
  | green
deriving DecidableEq

/-- Traffic-light arrows (`scenario_intersection/arrow.hpp` is not among
the sources; modelled from the spec, with `blank` the explicit "no arrow"
value the code compares against). -/
inductive Arrow where
  | blank
  | left
  | right
  | straight
deriving DecidableEq

/-- One actuator command issued to the `ScenarioAPI` simulator handle
(`setTrafficLightColor`, `resetTrafficLightColor`, `setTrafficLightArrow`,
`resetTrafficLightArrow`). -/
inductive Cmd where
  | setColor (id : Int) (c : Color)
  | resetColor (id : Int)
  | setArrow (id : Int) (a : Arrow)
  | resetArrow (id : Int)
deriving DecidableEq

/-- The simulator's response to each command: `true` when the command is
acknowledged, `false` when it fails (e.g. an illegal traffic-light id). -/
abbrev Sim := Cmd → Bool

/-- Issue one command: record it on the trace and return the simulator's
response. -/
def issue (ack : Sim) (tr : List Cmd) (c : Cmd) : Bool × List Cmd :=
  (ack c, tr ++ [c])

/-- `Intersection::Controller::Transition` (intersection.hpp lines 42-114):
the target signal id, the color, and the non-blank arrows, in declaration
order. -/
structure Transition where
  target : Int
  color : Color
  arrows : List Arrow
deriving DecidableEq

/-- `convert<Color>` — Modelled from the spec (`color.hpp` is not among
the sources): maps the YAML color string to a `Color`, `blank` for the
blank/unknown spelling. -/
def convertColor : String → Color
  | "Red" => .red
  | "Yellow" => .yellow
  | "Green" => .green
  | _ => .blank

/-- `convert<Arrow>` — Modelled from the spec (`arrow.hpp` is not among
the sources): maps the YAML arrow string to an `Arrow`, `blank` for the
blank/unknown spelling. -/
def convertArrow : String → Arrow
  | "Left" => .left
  | "Right" => .right
  | "Straight" => .straight
  | _ => .blank

/-- The shape of the YAML node the `Transition` constructor receives for
its arrows argument: the key may be absent, explicitly null, a scalar
(the deprecated singular `Arrow` form) or a sequence. -/
inductive YamlArrows where
  | absent
  | nullNode
  | scalar (s : String)
  | seq (ss : List String)
deriving DecidableEq

/-- The arrow list built by the `Transition` constructor
(intersection.hpp lines 62-78): nothing for an absent or null node; for a
scalar (deprecated) the converted value unless it is `Blank`; for a
sequence each converted element, keeping declaration order and dropping
`Blank` values. -/
def arrowsOfYaml : YamlArrows → List Arrow
  | .absent => []
  | .nullNode => []
  | .scalar s => if convertArrow s = .blank then [] else [convertArrow s]
  | .seq ss => (ss.map convertArrow).filter (fun a => a ≠ Arrow.blank)

/-- `Transition::Transition(const YAML::Node &, const YAML::Node &, const
YAML::Node &)` (intersection.hpp lines 55-79): the target id is the `Id`
value, the color is converted when the `Color` key is present and `Blank`
otherwise, and the arrows are as `arrowsOfYaml`. -/
def Transition.ofYaml (id : Int) (color : Option String) (v : YamlArrows) : Transition :=
  { target := id
    color := match color with
      | some s => convertColor s
      | none => Color.blank
    arrows := arrowsOfYaml v }

/-- `Transition::changeColor` (intersection.hpp lines 81-90): a reset
command when the target id is negative or the color is `Blank`, otherwise
a set command. -/
def Transition.changeColor (t : Transition) (ack : Sim) (tr : List Cmd) : Bool × List Cmd :=
  if t.target < 0 ∨ t.color = Color.blank then issue ack tr (.resetColor t.target)
  else issue ack tr (.setColor t.target t.color)

/-- The `std::all_of` loop of `Transition::changeArrow`
(intersection.hpp lines 96-105): issue `setTrafficLightArrow` for each
arrow in order, stopping at the first command the simulator rejects. -/
def setArrowsAllOf (ack : Sim) (target : Int) : List Arrow → List Cmd → Bool × List Cmd
  | [], tr => (true, tr)
  | a :: rest, tr =>
      let (b, tr1) := issue ack tr (.setArrow target a)
      if b then setArrowsAllOf ack target rest tr1 else (false, tr1)

/-- `Transition::changeArrow` (intersection.hpp lines 92-108): always
issue the arrow-reset command (its response is discarded); when the
target id is non-negative run the `std::all_of` loop over the arrows,
otherwise return `false`. -/
def Transition.changeArrow (t : Transition) (ack : Sim) (tr : List Cmd) : Bool × List Cmd :=
  let (_, tr1) := issue ack tr (.resetArrow t.target)
  if 0 ≤ t.target then setArrowsAllOf ack t.target t.arrows tr1
  else (false, tr1)

/-- `Transition::operator()(ScenarioAPI &)` (intersection.hpp
lines 110-113): `changeColor(simulator) and changeArrow(simulator)` — the
C++ `and` short-circuits, so a rejected color command skips the arrow
commands. -/
def Transition.apply (t : Transition) (ack : Sim) (tr : List Cmd) : Bool × List Cmd :=
  let (b, tr1) := t.changeColor ack tr
  if b then t.changeArrow ack tr1 else (false, tr1)

/-- The `std::all_of` loop of `Controller::operator()`
(intersection.hpp lines 142-151): apply each transition in order,
stopping at the first one that reports failure. -/
def applyAllOf (ack : Sim) : List Transition → List Cmd → Bool × List Cmd
  | [], tr => (true, tr)
  | t :: rest, tr =>
      let (b, tr1) := t.apply ack tr
      if b then applyAllOf ack rest tr1 else (false, tr1)

/-- `Intersection::Controller` (intersection.hpp lines 40-152): the
transitions of one named state, plus the warnings its constructor logged. -/
structure Controller where
  transitions : List Transition
  warnings : List String
deriving DecidableEq

/-- The deprecation warning logged for the singular `Arrow` tag
(intersection.hpp lines 130-131). -/
def deprecationWarning : String :=
  "Tag Arrow: <String> is deprecated. Use Arrows: [<String>*]"

/-- One element of the `TrafficLight` sequence of a `Control` node: the
`Id` value, the optional `Color` value, and the values of the deprecated
singular `Arrow` key and of the `Arrows` key. -/
structure TrafficLightEntry where
  id : Int
  color : Option String
  arrow : YamlArrows
  arrows : YamlArrows
deriving DecidableEq

/-- The per-entry branch of `Controller::Controller(const YAML::Node &,
const rclcpp::Logger &)` (intersection.hpp lines 127-135): when the
`Arrow` key is present (even with a null value) a deprecation warning is
logged and that node is passed to the `Transition` constructor, otherwise
the `Arrows` node is. -/
def buildTransition (e : TrafficLightEntry) : Transition × List String :=
  match e.arrow with
  | .absent => (Transition.ofYaml e.id e.color e.arrows, [])
  | v => (Transition.ofYaml e.id e.color v, [deprecationWarning])

/-- `Controller::Controller(const YAML::Node &, const rclcpp::Logger &)`
(intersection.hpp lines 124-140): build one transition per `TrafficLight`
entry, in order, collecting the deprecation warnings. -/
def Controller.ofYaml (entries : List TrafficLightEntry) : Controller :=
  { transitions := entries.map (fun e => (buildTransition e).1)
    warnings := entries.foldl (fun acc e => acc ++ (buildTransition e).2) [] }

/-- `Controller::operator()(ScenarioAPI &)` (intersection.hpp
lines 142-151). -/
def Controller.apply (c : Controller) (ack : Sim) (tr : List Cmd) : Bool × List Cmd :=
  applyAllOf ack c.transitions tr

/-- An `Intersection` as far as state transitions are concerned
(intersection.hpp lines 154-177): the controllers keyed by state name and
the current state. -/
structure Intersection where
  change_to_ : List (String × Controller)
  current_state : String

/-- First-match lookup of a state's controller. -/
def lookupState : List (String × Controller) → String → Option Controller
  | [], _ => none
  | (k, c) :: rest, st => if k = st then some c else lookupState rest st

/-- Modelled from the spec: `Intersection::change_to` (its implementation
file `intersection.cpp` is not among the sources).  Per the spec, applying
a declared state issues the state's commands through its controller and
"leaves currentState updated to target regardless" of whether an actuator
command failed; an undeclared state leaves the intersection unchanged. -/
def Intersection.change_to (i : Intersection) (ack : Sim) (st : String) :
    Bool × List Cmd × Intersection :=
  match lookupState i.change_to_ st with
  | none => (false, [], i)
  | some c =>
      let (b, tr) := c.apply ack []
      (b, tr, { i with current_state := st })

/-- The command the C++ issues for the color of a transition. -/
def colorCmd (t : Transition) : Cmd :=
  if t.target < 0 ∨ t.color = Color.blank then .resetColor t.target
  else .setColor t.target t.color

/-- A simulator that acknowledges every command. -/
def ackTrue : Sim := fun _ => true

/-- A simulator that rejects the color command for signal 1 (e.g. an
illegal traffic-light id) and acknowledges everything else. -/
def rejectSetColorOne : Sim := fun c =>
  match c with
  | .setColor 1 _ => false
  | _ => true

end ScenarioIntersection

namespace ScenarioConditions

/-- The tri-state verdict type `simulation_is` (declared in
`scenario_utility`, which is not among the sources; the spec names the
states RUNNING / SUCCEEDED / FAILED). -/
inductive SimulationIs where
  | ongoing
  | succeeded
  | failed
deriving DecidableEq

/-- Modelled from the spec: the verdict reduction of
`ConditionManager::update` (condition_manager.hpp lines 19-21 only
declares it; `condition_manager.cpp` is not among the sources).  Per the
spec: "if failure-tree result is true → FAILED (terminal); else if
success-tree result is true → SUCCEEDED (terminal); else RUNNING". -/
def reduceVerdict (failureResult successResult : Bool) : SimulationIs :=
  if failureResult then .failed
  else if successResult then .succeeded
  else .ongoing

end ScenarioConditions

namespace ScenarioExpression

/-- The collaborator pointer the `Context` stores for `c`
(`NAME ## _pointer()`, expression.h lines 58-61). -/
def Context.collabPointer (ctx : Context) : Collab → Option Unit
  | .api => ctx.api_
  | .entities => ctx.entities_
  | .intersections => ctx.intersections_

theorem evalFoldAnd_eq (cs : List Expr) (ctx : Context) :
    ∀ s acc, evalFoldAnd cs ctx s acc
      = (evalSeq cs ctx s).map (fun p => (p.1.foldl (fun l r => l && r) acc, p.2)) := by
  induction cs with
  | nil => intro s acc; simp [evalFoldAnd, evalSeq, Except.map]
  | cons c rest ih =>
      intro s acc
      simp only [evalFoldAnd, evalSeq]
      cases h : eval c ctx s with
      | error e => simp [Except.map]
      | ok p =>
          obtain ⟨r, s1⟩ := p
          dsimp only
          rw [ih s1 (acc && r.toBool)]
          cases h2 : evalSeq rest ctx s1 with
          | error e => simp [Except.map]
          | ok q => obtain ⟨bs, s2⟩ := q; simp [Except.map]

theorem evalFoldOr_eq (cs : List Expr) (ctx : Context) :
    ∀ s acc, evalFoldOr cs ctx s acc
      = (evalSeq cs ctx s).map (fun p => (p.1.foldl (fun l r => l || r) acc, p.2)) := by
  induction cs with
  | nil => intro s acc; simp [evalFoldOr, evalSeq, Except.map]
  | cons c rest ih =>
      intro s acc
      simp only [evalFoldOr, evalSeq]
      cases h : eval c ctx s with
      | error e => simp [Except.map]
      | ok p =>
          obtain ⟨r, s1⟩ := p
          dsimp only
          rw [ih s1 (acc || r.toBool)]
          cases h2 : evalSeq rest ctx s1 with
          | error e => simp [Except.map]
          | ok q => obtain ⟨bs, s2⟩ := q; simp [Except.map]

end ScenarioExpression


namespace ScenarioExpression

theorem evalSeq_append_error (ctx : Context) (x : Expr) (e : String) (post : List Expr) :
    ∀ pre s bs s1, evalSeq pre ctx s = .ok (bs, s1) → eval x ctx s1 = .error e →
      evalSeq (pre ++ x :: post) ctx s = .error e := by
  intro pre
  induction pre with
  | nil =>
      intro s bs s1 hpre hx
      simp only [evalSeq] at hpre
      obtain ⟨rfl, rfl⟩ : bs = [] ∧ s1 = s := by
        cases hpre; exact ⟨rfl, rfl⟩
      simp only [List.nil_append, evalSeq, hx]
  | cons c rest ih =>
      intro s bs s1 hpre hx
      simp only [evalSeq] at hpre
      cases h : eval c ctx s with
      | error e2 => simp [h] at hpre
      | ok p =>
          obtain ⟨r, s2⟩ := p
          simp only [h] at hpre
          cases h2 : evalSeq rest ctx s2 with
          | error e2 => simp [h2] at hpre
          | ok q =>
              obtain ⟨bs2, s3⟩ := q
              simp only [h2] at hpre
              obtain ⟨rfl, rfl⟩ : bs = r.toBool :: bs2 ∧ s1 = s3 := by
                cases hpre; exact ⟨rfl, rfl⟩
              simp only [List.cons_append, evalSeq, h]
              simp only [List.append_eq]
              rw [ih s2 bs2 s1 h2 hx]

/-- C1: evaluating `All(children)` returns a boolean literal equal to the
logical AND, seeded at `true`, of the children's per-evaluation boolean
results, and `Any(children)` the logical OR seeded at `false`; in both
cases the children are evaluated exactly once each, left to right in
declaration order, with no short-circuiting — `evalSeq` evaluates each
child exactly once in order, threading the full effect state (module
counters and invocation log), and the equation says the `std::accumulate`
of `All::evaluate` / `Any::evaluate` produces exactly that state together
with the fold of the collected per-child results. -/
theorem all_any_accumulate_everything (cs : List Expr) (ctx : Context) (s : EvalState) :
    eval (.all cs) ctx s
      = (evalSeq cs ctx s).map
          (fun p => (Expr.boolean (p.1.foldl (fun l r => l && r) true), p.2))
    ∧ eval (.any cs) ctx s
      = (evalSeq cs ctx s).map
          (fun p => (Expr.boolean (p.1.foldl (fun l r => l || r) false), p.2)) := by
  constructor
  · simp only [eval]
    rw [evalFoldAnd_eq]
    cases h : evalSeq cs ctx s with
    | error e => simp [Except.map]
    | ok p => obtain ⟨bs, s1⟩ := p; simp [Except.map]
  · simp only [eval]
    rw [evalFoldOr_eq]
    cases h : evalSeq cs ctx s with
    | error e => simp [Except.map]
    | ok p => obtain ⟨bs, s1⟩ := p; simp [Except.map]

/-- C8: `Not(Not(x)).evaluate()` is boolean-equivalent to `x.evaluate()`
for every expression `x` (every expression is literal-convertible through
the truthiness conversion `Expr.toBool`): the result is the boolean
literal carrying exactly the truthiness of `x`'s evaluation result, with
the same side effects and the same error propagation.  The second
equation is the `Not` node contract itself: it has exactly one child,
evaluates it, and returns the logical negation as a boolean literal
(`Not` is modelled from the spec; its class lives in `expression.cpp`,
which is not among the sources). -/
theorem not_not_boolean_equivalent (x : Expr) (ctx : Context) (s : EvalState) :
    eval (.nt (.nt x)) ctx s
      = (eval x ctx s).map (fun p => (Expr.boolean p.1.toBool, p.2))
    ∧ eval (.nt x) ctx s
      = (eval x ctx s).map (fun p => (Expr.boolean (! p.1.toBool), p.2)) := by
  constructor
  · simp only [eval]
    cases h : eval x ctx s with
    | error e => simp [Except.map]
    | ok p => obtain ⟨r, s1⟩ := p; simp [Except.map, Expr.toBool]
  · simp only [eval]
    cases h : eval x ctx s with
    | error e => simp [Except.map]
    | ok p => obtain ⟨r, s1⟩ := p; simp [Except.map]

/-- C10: evaluating a default-constructed (null-`data`) `Expression`
handle is total and effect-free — it returns the empty handle itself with
the evaluation state untouched and no error — and the boolean conversion
of an empty handle is `false`. -/
theorem empty_handle_evaluate_total (ctx : Context) (s : EvalState) :
    eval .empty ctx s = .ok (.empty, s) ∧ Expr.toBool .empty = false :=
  ⟨rfl, rfl⟩

/-- C5: evaluating a node that requires a collaborator the `Context` does
not hold fails with the accessor's configuration error, and the error
propagates uncaught through enclosing `All` / `Any` / `Not` — the whole
evaluation aborts with that error instead of scoring `false`.  (The
requiring module body and the `Not` class are modelled from the spec;
the accessor and the `All`/`Any` folds are from expression.h.) -/
theorem missing_collaborator_aborts (c : Collab) (ctx : Context) (pid : Nat)
    (hmiss : ctx.collabPointer c = none)
    (pre post : List Expr) (s s1 : EvalState) (bs : List Bool)
    (hpre : evalSeq pre ctx s = .ok (bs, s1)) :
    eval (.procedureReq c pid) ctx s1 = .error (missingMsg c)
    ∧ eval (.all (pre ++ .procedureReq c pid :: post)) ctx s = .error (missingMsg c)
    ∧ eval (.any (pre ++ .procedureReq c pid :: post)) ctx s = .error (missingMsg c)
    ∧ eval (.nt (.procedureReq c pid)) ctx s1 = .error (missingMsg c) := by
  have hreq : Context.require c ctx = .error (missingMsg c) := by
    cases c <;>
      simp only [Context.collabPointer] at hmiss <;>
      simp [Context.require, hmiss]
  have hx : eval (.procedureReq c pid) ctx s1 = .error (missingMsg c) := by
    simp [eval, hreq]
  have hseq : evalSeq (pre ++ Expr.procedureReq c pid :: post) ctx s
      = .error (missingMsg c) :=
    evalSeq_append_error ctx _ _ post pre s bs s1 hpre hx
  refine ⟨hx, ?_, ?_, ?_⟩
  · simp only [eval]
    rw [evalFoldAnd_eq, hseq]
    simp [Except.map]
  · simp only [eval]
    rw [evalFoldOr_eq, hseq]
    simp [Except.map]
  · simp [eval, hreq]

/-- Witness for `missing_collaborator_aborts`: a context lacking the
simulator API, a requiring predicate between two ordinary procedure
children. -/
theorem missing_collaborator_aborts_witness :
    (Context.collabPointer ⟨none, some (), some (), fun _ _ => true⟩ .api = none
      ∧ evalSeq [.procedure 7] ⟨none, some (), some (), fun _ _ => true⟩ ⟨[], []⟩
          = .ok ([true], ⟨[(7, 1)], [7]⟩))
    ∧ eval (.all ([.procedure 7] ++ .procedureReq .api 3 :: [.procedure 9]))
        ⟨none, some (), some (), fun _ _ => true⟩ ⟨[], []⟩
      = .error (missingMsg .api) := by
  refine ⟨⟨rfl, ?_⟩, ?_⟩
  · simp [evalSeq, eval, stepModule, mBump, mGet, Expr.toBool]
  · exact (missing_collaborator_aborts .api ⟨none, some (), some (), fun _ _ => true⟩ 3
      rfl [.procedure 7] [.procedure 9] ⟨[], []⟩ ⟨[(7, 1)], [7]⟩ [true]
      (by simp [evalSeq, eval, stepModule, mBump, mGet, Expr.toBool])).2.1

/-- C4: a `Predicate` node whose declared `Type` cannot be resolved
against the plugin registry (no declared class whose registered name is
`typeName + "Condition"`) fails at construction time with the
configuration error raised by `Procedure::load` and rethrown by the
constructor's function-try block; no `Predicate` value is produced at
all, so the failure cannot be observed as a `false` evaluation. -/
theorem unresolvable_type_fails_construction (L : Loader) (node : PNode)
    (h : ∀ d ∈ L.declaredClasses, L.names d ≠ node.typeName ++ "Condition") :
    Predicate.construct L node
      = .error ("Syntax error: malformed predicate. "
          ++ ("Failed to load Procedure " ++ (node.typeName ++ "Condition"))) := by
  have hfind : L.declaredClasses.find?
      (fun d => L.names d == node.typeName ++ "Condition") = none := by
    rw [List.find?_eq_none]
    intro d hd
    simpa using h d hd
  simp [Predicate.construct, load, hfind]

/-- Witness for `unresolvable_type_fails_construction`: a registry
declaring only `ReachPositionCondition`, and a predicate node with
`Type: "Bogus"`. -/
theorem unresolvable_type_fails_construction_witness :
    (∀ d ∈ ["scenario_conditions/ReachPositionCondition"],
        (fun d => if d = "scenario_conditions/ReachPositionCondition"
          then "ReachPositionCondition" else "") d ≠ "Bogus" ++ "Condition")
    ∧ Predicate.construct
        ⟨["scenario_conditions/ReachPositionCondition"],
          fun d => if d = "scenario_conditions/ReachPositionCondition"
            then "ReachPositionCondition" else "",
          fun d => some ⟨d⟩⟩
        ⟨"Bogus"⟩
      = .error ("Syntax error: malformed predicate. "
          ++ ("Failed to load Procedure " ++ ("Bogus" ++ "Condition"))) := by
  refine ⟨by decide, ?_⟩
  rw [unresolvable_type_fails_construction
    ⟨["scenario_conditions/ReachPositionCondition"],
      fun d => if d = "scenario_conditions/ReachPositionCondition"
        then "ReachPositionCondition" else "",
      fun d => some ⟨d⟩⟩
    ⟨"Bogus"⟩ (by decide)]

end ScenarioExpression

namespace ScenarioConditions

/-- C7: the per-tick verdict reduction — a true failure-tree result gives
FAILED whatever the success-tree result is (failure takes precedence),
otherwise a true success-tree result gives SUCCEEDED, otherwise RUNNING.
(`reduceVerdict` is modelled from the spec: `ConditionManager::update` is
only declared in condition_manager.hpp; its implementation file is not
among the sources.) -/
theorem verdict_reduction_tri_state :
    (∀ successResult, reduceVerdict true successResult = .failed)
    ∧ reduceVerdict false true = .succeeded
    ∧ reduceVerdict false false = .ongoing := by
  decide

end ScenarioConditions

namespace ScenarioIntersection

theorem setArrowsAllOf_ackTrue (target : Int) :
    ∀ (arrows : List Arrow) (tr : List Cmd),
      setArrowsAllOf ackTrue target arrows tr
        = (true, tr ++ arrows.map (Cmd.setArrow target)) := by
  intro arrows
  induction arrows with
  | nil => intro tr; simp [setArrowsAllOf]
  | cons a rest ih =>
      intro tr
      simp [setArrowsAllOf, issue, ackTrue, ih]

theorem apply_arrows_nil (t : Transition) (h : t.arrows = []) (tr : List Cmd) :
    (t.apply ackTrue tr).2 = tr ++ [colorCmd t, Cmd.resetArrow t.target] := by
  by_cases hc : t.target < 0 ∨ t.color = Color.blank
  · by_cases ht : (0 : Int) ≤ t.target <;>
      simp [Transition.apply, Transition.changeColor, Transition.changeArrow,
        issue, ackTrue, colorCmd, setArrowsAllOf, h, hc, ht]
  · by_cases ht : (0 : Int) ≤ t.target <;>
      simp [Transition.apply, Transition.changeColor, Transition.changeArrow,
        issue, ackTrue, colorCmd, setArrowsAllOf, h, hc, ht]

/-- C6 (amended): for a triple with a non-negative target id, applying it
with a simulator that acknowledges every command issues, in order, the
color command (`setTrafficLightColor`, or `resetTrafficLightColor` when
the color is blank), then the arrow-reset command, then one arrow-set
command per stored arrow in declaration order — where the `Transition`
constructor stores, of the declared arrows, exactly the non-`Blank` ones
in declaration order (second conjunct).  For a negative target id the
code issues no arrow-set commands (see the counterexample). -/
theorem transition_command_order (t : Transition) (tr : List Cmd)
    (h : (0 : Int) ≤ t.target) :
    (t.apply ackTrue tr).2
      = tr ++ colorCmd t :: Cmd.resetArrow t.target
          :: t.arrows.map (Cmd.setArrow t.target)
    ∧ ∀ (id : Int) (color : Option String) (ss : List String),
        (Transition.ofYaml id color (.seq ss)).arrows
          = (ss.map convertArrow).filter (fun a => a ≠ Arrow.blank) := by
  constructor
  · by_cases hc : t.target < 0 ∨ t.color = Color.blank <;>
      simp [Transition.apply, Transition.changeColor, Transition.changeArrow,
        issue, ackTrue, colorCmd, setArrowsAllOf_ackTrue, hc, h]
  · intro id color ss
    rfl

/-- Witness for `transition_command_order`: the RedToGreen scenario state
`Green` (signal 1 = green, arrow = straight). -/
theorem transition_command_order_witness :
    ((0 : Int) ≤ (Transition.ofYaml 1 (some "Green") (.seq ["Straight"])).target)
    ∧ ((Transition.ofYaml 1 (some "Green") (.seq ["Straight"])).apply ackTrue []).2
        = [Cmd.setColor 1 Color.green, Cmd.resetArrow 1, Cmd.setArrow 1 Arrow.straight] := by
  refine ⟨by decide, ?_⟩
  rw [(transition_command_order
    (Transition.ofYaml 1 (some "Green") (.seq ["Straight"])) [] (by decide)).1]
  decide

/-- C6 counterexample: the declared triple `(Id: -1, no color,
Arrows: [Left])` stores the declared arrow `Left`, yet applying it with a
simulator that acknowledges every command issues only the color-reset and
arrow-reset commands — no arrow-set command for the declared arrow is
issued, because `changeArrow` skips the `std::all_of` loop for a negative
target id.  This refutes the claim's "then one arrow-set command per
declared arrow in declaration order" for such triples. -/
theorem transition_negative_target_skips_arrows :
    (Transition.ofYaml (-1) none (.seq ["Left"])).arrows = [Arrow.left]
    ∧ ((Transition.ofYaml (-1) none (.seq ["Left"])).apply ackTrue []).2
        = [Cmd.resetColor (-1), Cmd.resetArrow (-1)]
    ∧ Cmd.setArrow (-1) Arrow.left
        ∉ ((Transition.ofYaml (-1) none (.seq ["Left"])).apply ackTrue []).2 := by
  decide

/-- C9: a `TrafficLight` entry using the deprecated singular `Arrow` key
with a scalar value is accepted and produces exactly the transition the
plural `Arrows` key with the one-element sequence produces, with the
deprecation warning logged (and no warning for the plural form); when the
scalar converts to the `Blank` arrow the stored arrow list is empty, so
applying the transition issues no arrow-set command. -/
theorem deprecated_arrow_alias (id : Int) (color : Option String) (v : String)
    (w : YamlArrows) :
    (buildTransition ⟨id, color, .scalar v, w⟩).1
        = (buildTransition ⟨id, color, .absent, .seq [v]⟩).1
    ∧ (buildTransition ⟨id, color, .scalar v, w⟩).2 = [deprecationWarning]
    ∧ (buildTransition ⟨id, color, .absent, .seq [v]⟩).2 = []
    ∧ (convertArrow v = Arrow.blank →
        (buildTransition ⟨id, color, .scalar v, w⟩).1.arrows = []
        ∧ ((buildTransition ⟨id, color, .scalar v, w⟩).1.apply ackTrue []).2
            = [colorCmd (buildTransition ⟨id, color, .scalar v, w⟩).1,
               Cmd.resetArrow id]) := by
  refine ⟨?_, rfl, rfl, ?_⟩
  · by_cases hb : convertArrow v = Arrow.blank <;>
      simp [buildTransition, Transition.ofYaml, arrowsOfYaml, hb]
  · intro hb
    have harr : (buildTransition ⟨id, color, .scalar v, w⟩).1.arrows = [] := by
      simp [buildTransition, Transition.ofYaml, arrowsOfYaml, hb]
    refine ⟨harr, ?_⟩
    have := apply_arrows_nil (buildTransition ⟨id, color, .scalar v, w⟩).1 harr []
    simpa [buildTransition, Transition.ofYaml] using this

/-- Witness for `deprecated_arrow_alias`: signal 5, red, deprecated
`Arrow: Blank`. -/
theorem deprecated_arrow_alias_witness :
    convertArrow "Blank" = Arrow.blank
    ∧ (buildTransition ⟨5, some "Red", .scalar "Blank", .absent⟩).1
        = (buildTransition ⟨5, some "Red", .absent, .seq ["Blank"]⟩).1
    ∧ (buildTransition ⟨5, some "Red", .scalar "Blank", .absent⟩).2 = [deprecationWarning]
    ∧ ((buildTransition ⟨5, some "Red", .scalar "Blank", .absent⟩).1.apply ackTrue []).2
        = [colorCmd (buildTransition ⟨5, some "Red", .scalar "Blank", .absent⟩).1,
           Cmd.resetArrow 5] := by
  have h := deprecated_arrow_alias 5 (some "Red") "Blank" .absent
  exact ⟨by decide, h.1, h.2.1, (h.2.2.2 (by decide)).2⟩

/-- C2 (amended): when an individual signal actuator command fails, the
controller stops issuing the remaining commands rather than continuing: a
rejected color command makes `Transition::operator()` skip the triple's
arrow commands (the C++ `and` short-circuits), a rejected arrow-set
command stops the `std::all_of` loop over the remaining arrow-sets, and a
failed triple makes the controller's `std::all_of` skip all subsequent
triples.  Already-issued commands are not rolled back, and the intended
state transition is still recorded: `Intersection::change_to` (modelled
from the spec, its implementation file is not among the sources) sets
`current_state` to the target state regardless of the controller's
result. -/
theorem actuator_failure_short_circuits :
    (∀ (t : Transition) (ack : Sim) (tr : List Cmd),
        (t.changeColor ack tr).1 = false →
        t.apply ack tr = (false, (t.changeColor ack tr).2))
    ∧ (∀ (ack : Sim) (target : Int) (a : Arrow) (rest : List Arrow) (tr : List Cmd),
        ack (Cmd.setArrow target a) = false →
        setArrowsAllOf ack target (a :: rest) tr = (false, tr ++ [Cmd.setArrow target a]))
    ∧ (∀ (t : Transition) (rest : List Transition) (ack : Sim) (tr : List Cmd),
        (t.apply ack tr).1 = false →
        applyAllOf ack (t :: rest) tr = (false, (t.apply ack tr).2))
    ∧ (∀ (i : Intersection) (ack : Sim) (st : String) (c : Controller),
        lookupState i.change_to_ st = some c →
        (i.change_to ack st).2.2.current_state = st) := by
  refine ⟨?_, ?_, ?_, ?_⟩
  · intro t ack tr h
    rcases hcc : t.changeColor ack tr with ⟨b, tr1⟩
    rw [hcc] at h
    simp only at h
    simp [Transition.apply, hcc, h]
  · intro ack target a rest tr h
    simp [setArrowsAllOf, issue, h]
  · intro t rest ack tr h
    rcases happ : t.apply ack tr with ⟨b, tr1⟩
    rw [happ] at h
    simp only at h
    simp [applyAllOf, happ, h]
  · intro i ack st c h
    rcases happ : c.apply ack [] with ⟨b, tr⟩
    simp [Intersection.change_to, h, happ]

/-- Witness for `actuator_failure_short_circuits`: a simulator rejecting
`setColor(1, _)`, the triple `(1, red, [left])` followed by
`(2, green, [])`, a simulator rejecting every command for the arrow-set
clause, and a two-state intersection transitioning to "Green". -/
theorem actuator_failure_short_circuits_witness :
    Transition.apply ⟨1, Color.red, [Arrow.left]⟩ rejectSetColorOne []
      = (false, (Transition.changeColor ⟨1, Color.red, [Arrow.left]⟩ rejectSetColorOne []).2)
    ∧ setArrowsAllOf (fun _ => false) 1 (Arrow.left :: [Arrow.right]) []
      = (false, [] ++ [Cmd.setArrow 1 Arrow.left])
    ∧ applyAllOf rejectSetColorOne
        (⟨1, Color.red, [Arrow.left]⟩ :: [⟨2, Color.green, []⟩]) []
      = (false, (Transition.apply ⟨1, Color.red, [Arrow.left]⟩ rejectSetColorOne []).2)
    ∧ (Intersection.change_to ⟨[("Green", ⟨[⟨1, Color.green, []⟩], []⟩)], "Red"⟩
        rejectSetColorOne "Green").2.2.current_state = "Green" :=
  ⟨actuator_failure_short_circuits.1 ⟨1, Color.red, [Arrow.left]⟩ rejectSetColorOne []
      (by decide),
    actuator_failure_short_circuits.2.1 (fun _ => false) 1 Arrow.left [Arrow.right] []
      (by decide),
    actuator_failure_short_circuits.2.2.1 ⟨1, Color.red, [Arrow.left]⟩
      [⟨2, Color.green, []⟩] rejectSetColorOne [] (by decide),
    actuator_failure_short_circuits.2.2.2
      ⟨[("Green", ⟨[⟨1, Color.green, []⟩], []⟩)], "Red"⟩ rejectSetColorOne "Green"
      ⟨[⟨1, Color.green, []⟩], []⟩ (by decide)⟩

/-- C2 counterexample: with a simulator that rejects the color command
for signal 1 (an individual actuator failure), applying the state whose
triples are `(1, red, [left])` and `(2, green, [])` issues only the
rejected color command: the current triple's arrow-reset and arrow-set
commands and every command of the subsequent triple are never issued —
the controller does not continue as the claim states. -/
theorem actuator_failure_stops_commands :
    applyAllOf rejectSetColorOne
        [⟨1, Color.red, [Arrow.left]⟩, ⟨2, Color.green, []⟩] []
      = (false, [Cmd.setColor 1 Color.red])
    ∧ Cmd.resetArrow 1 ∉ (applyAllOf rejectSetColorOne
        [⟨1, Color.red, [Arrow.left]⟩, ⟨2, Color.green, []⟩] []).2
    ∧ Cmd.setColor 2 Color.green ∉ (applyAllOf rejectSetColorOne
        [⟨1, Color.red, [Arrow.left]⟩, ⟨2, Color.green, []⟩] []).2 := by
  decide

end ScenarioIntersection

namespace RefCount

theorem countRefs_append (l1 l2 : List (Option Nat)) (a : Nat) :
    countRefs (l1 ++ l2) a = countRefs l1 a + countRefs l2 a := by
  induction l1 with
  | nil => simp [countRefs]
  | cons v rest ih => simp [countRefs, ih, Nat.add_assoc]

theorem countRefs_singleton (v : Option Nat) (a : Nat) :
    countRefs [v] a = if v = some a then 1 else 0 := by
  simp [countRefs]

theorem countRefs_pos_of_getD (l : List (Option Nat)) :
    ∀ i a, l.getD i none = some a → 0 < countRefs l a := by
  induction l with
  | nil => intro i a h; simp [List.getD_eq_default] at h
  | cons v rest ih =>
      intro i a h
      cases i with
      | zero =>
          rw [List.getD_cons_zero] at h
          simp [countRefs, h]
      | succ n =>
          rw [List.getD_cons_succ] at h
          have := ih n a h
          simp [countRefs]
          omega

theorem getD_lt_length (l : List (Option Nat)) :
    ∀ i a, l.getD i none = some a → i < l.length := by
  induction l with
  | nil => intro i a h; simp [List.getD_eq_default] at h
  | cons v rest ih =>
      intro i a h
      cases i with
      | zero => simp
      | succ n =>
          rw [List.getD_cons_succ] at h
          have := ih n a h
          simp
          omega

theorem countRefs_eraseIdx (l : List (Option Nat)) :
    ∀ i a, countRefs (l.eraseIdx i) a + countRefs [l.getD i none] a
      = countRefs l a := by
  induction l with
  | nil => intro i a; simp [List.eraseIdx, countRefs, List.getD_eq_default]
  | cons v rest ih =>
      intro i a
      cases i with
      | zero => simp [List.eraseIdx, countRefs]; omega
      | succ n =>
          rw [List.getD_cons_succ]
          show countRefs (v :: rest.eraseIdx n) a + _ = _
          simp only [countRefs]
          have := ih n a
          simp only [countRefs] at this
          omega

theorem countRefs_set (l : List (Option Nat)) :
    ∀ i v a, i < l.length →
      countRefs (l.set i v) a + countRefs [l.getD i none] a
        = countRefs l a + countRefs [v] a := by
  induction l with
  | nil => intro i v a h; simp at h
  | cons w rest ih =>
      intro i v a h
      cases i with
      | zero => simp [List.set, countRefs]; omega
      | succ n =>
          rw [List.getD_cons_succ]
          show countRefs (w :: rest.set n v) a + _ = _
          simp only [countRefs]
          have hn : n < rest.length := by simp at h; omega
          have := ih n v a hn
          simp only [countRefs] at this
          omega

theorem getD_set_ne (l : List (Option Nat)) :
    ∀ i j v, i ≠ j → (l.set i v).getD j none = l.getD j none := by
  induction l with
  | nil => intro i j v _; simp [List.set]
  | cons w rest ih =>
      intro i j v hne
      cases i with
      | zero =>
          cases j with
          | zero => exact absurd rfl hne
          | succ m => simp [List.set, List.getD_cons_succ]
      | succ n =>
          cases j with
          | zero => simp [List.set, List.getD_cons_zero]
          | succ m =>
              simp only [List.set, List.getD_cons_succ]
              exact ih n m v (by omega)

theorem getD_set_self (l : List (Option Nat)) :
    ∀ i v, i < l.length → (l.set i v).getD i none = v := by
  induction l with
  | nil => intro i v h; simp at h
  | cons w rest ih =>
      intro i v h
      cases i with
      | zero => simp [List.set]
      | succ n =>
          simp only [List.set, List.getD_cons_succ]
          exact ih n v (by simp at h; omega)

theorem getD_append_length (l : List (Option Nat)) (v : Option Nat) :
    (l ++ [v]).getD l.length none = v := by
  induction l with
  | nil => simp [List.getD_cons_zero]
  | cons w rest ih => simp [ih]

theorem getD_append_getD (l : List (Option Nat)) (i : Nat) :
    (l ++ [l.getD i none]).getD i none = l.getD i none := by
  by_cases h : i < l.length
  · exact List.getD_append _ _ _ _ h
  · have hge : l.length ≤ i := by omega
    have hv : l.getD i none = none := List.getD_eq_default _ _ hge
    rw [hv]
    by_cases he : i = l.length
    · rw [he]; exact getD_append_length l none
    · apply List.getD_eq_default
      simp
      omega

theorem hLookup_eq_none (h : Heap) (a : Nat) (hnm : a ∉ h.map Prod.fst) :
    hLookup h a = none := by
  induction h with
  | nil => rfl
  | cons p rest ih =>
      obtain ⟨b, n⟩ := p
      simp only [List.map_cons, List.mem_cons] at hnm
      push_neg at hnm
      simp [hLookup, Ne.symm hnm.1, ih hnm.2]

theorem hLookup_hIncr_self (h : Heap) (a : Nat) :
    hLookup (hIncr h a) a
      = (hLookup h a).map (fun n => ⟨n.count + 1, n.pluginId⟩) := by
  induction h with
  | nil => rfl
  | cons p rest ih =>
      obtain ⟨b, n⟩ := p
      by_cases hba : b = a
      · subst hba; simp [hIncr, hLookup]
      · simp [hIncr, hLookup, hba, ih]

theorem hLookup_hIncr_ne (h : Heap) (a b : Nat) (hne : b ≠ a) :
    hLookup (hIncr h a) b = hLookup h b := by
  induction h with
  | nil => rfl
  | cons p rest ih =>
      obtain ⟨c, n⟩ := p
      by_cases hca : c = a
      · subst hca
        simp [hIncr, hLookup, Ne.symm hne]
      · by_cases hcb : c = b
        · subst hcb; simp [hIncr, hLookup, hca]
        · simp [hIncr, hLookup, hca, hcb, ih]

theorem keys_hIncr (h : Heap) (a : Nat) :
    (hIncr h a).map Prod.fst = h.map Prod.fst := by
  induction h with
  | nil => rfl
  | cons p rest ih =>
      obtain ⟨b, n⟩ := p
      by_cases hba : b = a
      · subst hba; simp [hIncr]
      · simp [hIncr, hba, ih]

theorem hLookup_hDecrFree_self (h : Heap) (a : Nat)
    (nodup : (h.map Prod.fst).Nodup) :
    hLookup (hDecrFree h a) a
      = match hLookup h a with
        | none => none
        | some n => if n.count ≤ 1 then none else some ⟨n.count - 1, n.pluginId⟩ := by
  induction h with
  | nil => rfl
  | cons p rest ih =>
      obtain ⟨b, n⟩ := p
      simp only [List.map_cons, List.nodup_cons] at nodup
      by_cases hba : b = a
      · subst hba
        by_cases hc : n.count ≤ 1
        · simp [hDecrFree, hLookup, hc, hLookup_eq_none rest b nodup.1]
        · simp [hDecrFree, hLookup, hc]
      · simp [hDecrFree, hLookup, hba, ih nodup.2]

theorem hLookup_hDecrFree_of_some (h : Heap) (a : Nat) (n0 : RNode)
    (nodup : (h.map Prod.fst).Nodup) (hl0 : hLookup h a = some n0) :
    hLookup (hDecrFree h a) a
      = if n0.count ≤ 1 then none else some ⟨n0.count - 1, n0.pluginId⟩ := by
  rw [hLookup_hDecrFree_self h a nodup, hl0]

theorem hLookup_hDecrFree_ne (h : Heap) (a b : Nat) (hne : b ≠ a) :
    hLookup (hDecrFree h a) b = hLookup h b := by
  induction h with
  | nil => rfl
  | cons p rest ih =>
      obtain ⟨c, n⟩ := p
      by_cases hca : c = a
      · subst hca
        by_cases hc : n.count ≤ 1
        · simp [hDecrFree, hLookup, hc, Ne.symm hne]
        · simp [hDecrFree, hLookup, hc, Ne.symm hne]
      · by_cases hcb : c = b
        · subst hcb; simp [hDecrFree, hLookup, hca]
        · simp [hDecrFree, hLookup, hca, hcb, ih]

theorem keys_hDecrFree_sublist (h : Heap) (a : Nat) :
    List.Sublist ((hDecrFree h a).map Prod.fst) (h.map Prod.fst) := by
  induction h with
  | nil => simp [hDecrFree]
  | cons p rest ih =>
      obtain ⟨b, n⟩ := p
      by_cases hba : b = a
      · subst hba
        by_cases hc : n.count ≤ 1
        · simp only [hDecrFree, if_pos rfl, if_pos hc]
          exact List.sublist_cons_self b (rest.map Prod.fst)
        · simp only [hDecrFree, if_pos rfl, if_neg hc, List.map_cons]
          exact List.Sublist.cons₂ b (List.Sublist.refl _)
      · simp only [hDecrFree, if_neg hba, List.map_cons]
        exact List.Sublist.cons₂ b ih

theorem hLookup_append_single (h : Heap) (k : Nat) (n : RNode) (a : Nat) :
    hLookup (h ++ [(k, n)]) a
      = match hLookup h a with
        | some m => some m
        | none => if k = a then some n else none := by
  induction h with
  | nil => rfl
  | cons p rest ih =>
      obtain ⟨b, m⟩ := p
      by_cases hba : b = a
      · subst hba; simp [hLookup]
      · simp [hLookup, hba, ih]

theorem mem_keys_of_hLookup (h : Heap) (a : Nat) (n : RNode)
    (hl : hLookup h a = some n) : a ∈ h.map Prod.fst := by
  induction h with
  | nil => simp [hLookup] at hl
  | cons p rest ih =>
      obtain ⟨b, m⟩ := p
      by_cases hba : b = a
      · subst hba; simp
      · simp only [hLookup, if_neg hba] at hl
        simp [ih hl]

theorem hLookup_of_mem_keys (h : Heap) (a : Nat) (hm : a ∈ h.map Prod.fst) :
    ∃ n, hLookup h a = some n := by
  induction h with
  | nil => simp at hm
  | cons p rest ih =>
      obtain ⟨b, n⟩ := p
      by_cases hba : b = a
      · exact ⟨n, by simp [hLookup, hba]⟩
      · simp only [List.map_cons, List.mem_cons] at hm
        rcases hm with hm | hm
        · exact absurd hm.symm hba
        · obtain ⟨m, hmm⟩ := ih hm
          exact ⟨m, by simp [hLookup, hba, hmm]⟩

theorem lookup_of_ref (s : RState) (hwf : Wf s) (i a0 : Nat)
    (hv : s.vars.getD i none = some a0) :
    ∃ n0, hLookup s.heap a0 = some n0 ∧ n0.count = countRefs s.vars a0 := by
  obtain ⟨h1, h2, h3⟩ := hwf
  cases hl : hLookup s.heap a0 with
  | none =>
      have h0 := h2 a0 hl
      have hpos := countRefs_pos_of_getD s.vars i a0 hv
      omega
  | some n0 => exact ⟨n0, rfl, (h1 a0 n0 hl).1⟩

theorem wf_opMake (pid : Nat) (s : RState) (hwf : Wf s) : Wf (opMake pid s) := by
  obtain ⟨h1, h2, h3⟩ := hwf
  have hfresh : hLookup s.heap s.next = none := by
    cases hl : hLookup s.heap s.next with
    | none => rfl
    | some m => exact absurd (h1 _ _ hl).2.2 (lt_irrefl _)
  refine ⟨?_, ?_, ?_⟩
  · intro a n hl
    simp only [opMake] at hl ⊢
    rw [hLookup_append_single] at hl
    cases hl2 : hLookup s.heap a with
    | some m =>
        simp only [hl2] at hl
        cases hl
        have hm := h1 a _ hl2
        have hne : ¬ (s.next = a) := by
          have := hm.2.2; omega
        rw [countRefs_append, countRefs_singleton]
        simp only [Option.some.injEq, hne, if_false]
        exact ⟨by omega, hm.2.1, by omega⟩
    | none =>
        simp only [hl2] at hl
        by_cases hna : s.next = a
        · subst hna
          rw [if_pos rfl] at hl
          cases hl
          have h0 : countRefs s.vars s.next = 0 := h2 _ hfresh
          rw [countRefs_append, countRefs_singleton]
          refine ⟨by simp [h0], by simp, by omega⟩
        · rw [if_neg hna] at hl
          cases hl
  · intro a hl
    simp only [opMake] at hl ⊢
    rw [hLookup_append_single] at hl
    cases hl2 : hLookup s.heap a with
    | some m => simp only [hl2] at hl; cases hl
    | none =>
        simp only [hl2] at hl
        by_cases hna : s.next = a
        · rw [if_pos hna] at hl; cases hl
        · have h0 := h2 a hl2
          rw [countRefs_append, countRefs_singleton]
          simp only [Option.some.injEq, hna, if_false]
          omega
  · simp only [opMake, List.map_append]
    rw [List.nodup_append]
    refine ⟨h3, by simp, ?_⟩
    intro a ha hb
    simp only [List.map_cons, List.map_nil, List.mem_singleton] at hb
    obtain ⟨n, hn⟩ := hLookup_of_mem_keys s.heap a ha
    have := (h1 a n hn).2.2
    omega

theorem wf_opCopy (i : Nat) (s : RState) (hwf : Wf s) : Wf (opCopy i s) := by
  cases hv : s.vars.getD i none with
  | none =>
      obtain ⟨h1, h2, h3⟩ := hwf
      refine ⟨?_, ?_, ?_⟩ <;> simp only [opCopy, hv]
      · intro a n hl
        have hm := h1 a n hl
        rw [countRefs_append, countRefs_singleton]
        simp only [reduceCtorEq, if_false]
        exact ⟨by omega, hm.2⟩
      · intro a hl
        have h0 := h2 a hl
        rw [countRefs_append, countRefs_singleton]
        simp only [reduceCtorEq, if_false]
        omega
      · exact h3
  | some a0 =>
      obtain ⟨n0, hl0, hc0⟩ := lookup_of_ref s hwf i a0 hv
      obtain ⟨h1, h2, h3⟩ := hwf
      refine ⟨?_, ?_, ?_⟩ <;> simp only [opCopy, hv]
      · intro a n hl
        by_cases haa : a = a0
        · subst haa
          rw [hLookup_hIncr_self, hl0] at hl
          simp only [Option.map_some', Option.some.injEq] at hl
          subst hl
          have hm := h1 _ _ hl0
          rw [countRefs_append, countRefs_singleton]
          refine ⟨by simp; omega, by simp, hm.2.2⟩
        · rw [hLookup_hIncr_ne _ _ _ haa] at hl
          have hm := h1 a n hl
          have hne : ¬ (a0 = a) := fun hh => haa hh.symm
          rw [countRefs_append, countRefs_singleton]
          simp only [Option.some.injEq, hne, if_false]
          exact ⟨by omega, hm.2⟩
      · intro a hl
        by_cases haa : a = a0
        · subst haa
          rw [hLookup_hIncr_self, hl0] at hl
          simp only [Option.map_some', reduceCtorEq] at hl
        · rw [hLookup_hIncr_ne _ _ _ haa] at hl
          have h0 := h2 a hl
          have hne : ¬ (a0 = a) := fun hh => haa hh.symm
          rw [countRefs_append, countRefs_singleton]
          simp only [Option.some.injEq, hne, if_false]
          omega
      · rw [keys_hIncr]
        exact h3

theorem wf_opDestroy (i : Nat) (s : RState) (hwf : Wf s) : Wf (opDestroy i s) := by
  cases hv : s.vars.getD i none with
  | none =>
      obtain ⟨h1, h2, h3⟩ := hwf
      have he : ∀ a, countRefs (s.vars.eraseIdx i) a = countRefs s.vars a := by
        intro a
        have := countRefs_eraseIdx s.vars i a
        rw [hv] at this
        simp only [countRefs_singleton, reduceCtorEq, if_false] at this
        omega
      refine ⟨?_, ?_, ?_⟩ <;> simp only [opDestroy, hv]
      · intro a n hl
        have hm := h1 a n hl
        rw [he a]
        exact hm
      · intro a hl
        rw [he a]
        exact h2 a hl
      · exact h3
  | some a0 =>
      obtain ⟨n0, hl0, hc0⟩ := lookup_of_ref s hwf i a0 hv
      obtain ⟨h1, h2, h3⟩ := hwf
      have he0 : countRefs (s.vars.eraseIdx i) a0 + 1 = countRefs s.vars a0 := by
        have := countRefs_eraseIdx s.vars i a0
        rw [hv] at this
        simp only [countRefs_singleton] at this
        simp at this
        omega
      have hene : ∀ a, a ≠ a0 → countRefs (s.vars.eraseIdx i) a = countRefs s.vars a := by
        intro a haa
        have := countRefs_eraseIdx s.vars i a
        rw [hv] at this
        have hne : ¬ (some a0 = some (a : Nat)) := by
          simp
          exact fun hh => haa hh.symm
        simp only [countRefs_singleton, hne, if_false] at this
        omega
      refine ⟨?_, ?_, ?_⟩ <;> simp only [opDestroy, hv]
      · intro a n hl
        by_cases haa : a = a0
        · subst haa
          rw [hLookup_hDecrFree_of_some _ _ _ h3 hl0] at hl
          by_cases hcle : n0.count ≤ 1
          · rw [if_pos hcle] at hl; cases hl
          · rw [if_neg hcle] at hl
            simp only [Option.some.injEq] at hl
            subst hl
            have hm := h1 _ _ hl0
            refine ⟨by simp; omega, by simp; omega, hm.2.2⟩
        · rw [hLookup_hDecrFree_ne _ _ _ haa] at hl
          have hm := h1 a n hl
          rw [hene a haa]
          exact hm
      · intro a hl
        by_cases haa : a = a0
        · subst haa
          rw [hLookup_hDecrFree_of_some _ _ _ h3 hl0] at hl
          by_cases hcle : n0.count ≤ 1
          · omega
          · rw [if_neg hcle] at hl; cases hl
        · rw [hLookup_hDecrFree_ne _ _ _ haa] at hl
          rw [hene a haa]
          exact h2 a hl
      · exact h3.sublist (keys_hDecrFree_sublist s.heap a0)

theorem countRefs_swap (s : RState) (i j a : Nat) :
    countRefs (swapVars s i j).vars a = countRefs s.vars a := by
  unfold swapVars
  by_cases hcond : i < s.vars.length ∧ j < s.vars.length
  · rw [if_pos hcond]
    dsimp only
    obtain ⟨hi, hj⟩ := hcond
    have hlen : j < (s.vars.set i (s.vars.getD j none)).length := by
      simpa using hj
    have h2 := countRefs_set (s.vars.set i (s.vars.getD j none)) j
      (s.vars.getD i none) a hlen
    have h1 := countRefs_set s.vars i (s.vars.getD j none) a hi
    by_cases hij : i = j
    · subst hij
      rw [getD_set_self s.vars i (s.vars.getD i none) hi] at h2
      omega
    · rw [getD_set_ne s.vars i j (s.vars.getD j none) hij] at h2
      omega
  · rw [if_neg hcond]

theorem wf_swapVars (s : RState) (i j : Nat) (hwf : Wf s) : Wf (swapVars s i j) := by
  obtain ⟨h1, h2, h3⟩ := hwf
  have hheap : (swapVars s i j).heap = s.heap := by
    unfold swapVars; split <;> rfl
  have hnext : (swapVars s i j).next = s.next := by
    unfold swapVars; split <;> rfl
  refine ⟨?_, ?_, ?_⟩
  · intro a n hl
    rw [hheap] at hl
    rw [countRefs_swap, hnext]
    exact h1 a n hl
  · intro a hl
    rw [hheap] at hl
    rw [countRefs_swap]
    exact h2 a hl
  · rw [hheap]; exact h3

theorem wf_applyOp (op : Op) (s : RState) (hwf : Wf s) : Wf (applyOp op s) := by
  cases op with
  | make pid => exact wf_opMake pid s hwf
  | copy i => exact wf_opCopy i s hwf
  | destroy i => exact wf_opDestroy i s hwf
  | assign i j =>
      exact wf_opDestroy _ _ (wf_swapVars _ _ _ (wf_opCopy j s hwf))

theorem wf_init : Wf init := by
  refine ⟨?_, ?_, ?_⟩
  · intro a n hl
    simp [hLookup, init] at hl
  · intro a _
    rfl
  · simp [init]

theorem wf_runOps (ops : List Op) : Wf (runOps ops) := by
  have key : ∀ (l : List Op) (s : RState), Wf s →
      Wf (l.foldl (fun s op => applyOp op s) s) := by
    intro l
    induction l with
    | nil => intro s h; exact h
    | cons op rest ih =>
        intro s h
        exact ih _ (wf_applyOp op s h)
  exact key ops init wf_init

theorem destroy_frees_iff (s : RState) (i a : Nat) (hwf : Wf s)
    (hv : s.vars.getD i none = some a) :
    hLookup (applyOp (.destroy i) s).heap a = none ↔ countRefs s.vars a = 1 := by
  obtain ⟨n0, hl0, hc0⟩ := lookup_of_ref s hwf i a hv
  obtain ⟨h1, h2, h3⟩ := hwf
  have hpos : 0 < countRefs s.vars a := countRefs_pos_of_getD s.vars i a hv
  show hLookup (opDestroy i s).heap a = none ↔ _
  simp only [opDestroy, hv]
  rw [hLookup_hDecrFree_of_some _ _ _ h3 hl0]
  by_cases hcle : n0.count ≤ 1
  · rw [if_pos hcle]
    simp only [true_iff]
    omega
  · rw [if_neg hcle]
    simp only [reduceCtorEq, false_iff]
    omega

theorem copy_shares_node (s : RState) (i : Nat) :
    evalHandle (applyOp (.copy i) s) s.vars.length
      = evalHandle (applyOp (.copy i) s) i := by
  have hvars : (opCopy i s).vars = s.vars ++ [s.vars.getD i none] := by
    unfold opCopy
    cases hv : s.vars.getD i none with
    | none => rfl
    | some a => rfl
  have hkey : (opCopy i s).vars.getD s.vars.length none
      = (opCopy i s).vars.getD i none := by
    rw [hvars, getD_append_length, getD_append_getD]
  show evalHandle (opCopy i s) s.vars.length = evalHandle (opCopy i s) i
  unfold evalHandle
  rw [hkey]

/-- C3: copying or assigning an `Expression` shares the backing node.
Across every sequence of handle operations (`Expression::make`, the copy
constructor, the destructor, `operator=`) starting from no handles, every
allocated node's reference count equals the number of live handles
referencing it (and is positive — a node whose count reached zero has
been deleted); destroying a handle whose node is live frees that node
exactly when the handle was the last one referencing it; and the handle
pushed by the copy constructor references the very node of the handle it
copied, so evaluating the copy advances exactly the same plugin module
state as evaluating the original (`Procedure` copy construction shares
the `plugin` pointer, expression.h lines 388-391). -/
theorem shared_backing_node :
    (∀ ops : List Op, Wf (runOps ops))
    ∧ (∀ (s : RState) (i a : Nat), Wf s → s.vars.getD i none = some a →
        (hLookup (applyOp (.destroy i) s).heap a = none
          ↔ countRefs s.vars a = 1))
    ∧ (∀ (s : RState) (i : Nat),
        evalHandle (applyOp (.copy i) s) s.vars.length
          = evalHandle (applyOp (.copy i) s) i) :=
  ⟨wf_runOps,
   fun s i a hwf hv => destroy_frees_iff s i a hwf hv,
   fun s i => copy_shares_node s i⟩

/-- Witness for `shared_backing_node`: make one node, copy its handle;
the invariant holds, destroying one of the two handles does not free the
node (two handles reference it), and a fresh copy of a one-node state
evaluates the same module as the original handle. -/
theorem shared_backing_node_witness :
    Wf (runOps [Op.make 0, Op.copy 0])
    ∧ (runOps [Op.make 0, Op.copy 0]).vars.getD 1 none = some 0
    ∧ (hLookup (applyOp (Op.destroy 1) (runOps [Op.make 0, Op.copy 0])).heap 0 = none
        ↔ countRefs (runOps [Op.make 0, Op.copy 0]).vars 0 = 1)
    ∧ evalHandle (applyOp (Op.copy 0) (runOps [Op.make 5]))
          (runOps [Op.make 5]).vars.length
        = evalHandle (applyOp (Op.copy 0) (runOps [Op.make 5])) 0 :=
  ⟨shared_backing_node.1 [Op.make 0, Op.copy 0],
   by decide,
   shared_backing_node.2.1 (runOps [Op.make 0, Op.copy 0]) 1 0
     (shared_backing_node.1 [Op.make 0, Op.copy 0]) (by decide),
   shared_backing_node.2.2 (runOps [Op.make 5]) 0⟩

end RefCount
